import Mathlib

/-!
# Verification of the `model_lr.py` preprocessing pipeline

A shallow embedding of the three custom transformers of
`src/experiments/model_lr.py` (`ColumnsSelector`, `CategoricalImputer`,
`CategoricalEncoder`), of the pipeline configuration built by
`get_pipeline`, and of the grid-search section of the script's main block.

Tabular data is modelled as a list of named, dtype-tagged columns of cells;
pandas `NaN` is the cell `Cell.na`.  Fallible Python operations
(`KeyError`, `AttributeError`, ...) are modelled with `Except Err`.
-/

set_option autoImplicit false

/-- A pandas dtype tag, as used by `select_dtypes(include=[...])`. -/
inductive Dtype where
  | int64
  | float64
  | object
deriving DecidableEq, Repr

/-- A single cell of a column: an integer, a float (modelled as a rational),
a string, or the missing value `NaN`. -/
inductive Cell where
  | int (i : Int)
  | float (q : Rat)
  | str (s : String)
  | na
deriving DecidableEq, Repr

/-- A named column: its name, its dtype tag and its cells (row order). -/
structure Col where
  name : String
  dtype : Dtype
  values : List Cell
deriving DecidableEq, Repr

/-- A pandas DataFrame: an ordered list of columns. -/
structure DataFrame where
  cols : List Col
deriving DecidableEq, Repr

/-- Errors raised by the Python code (`Except` models an abort with
no partial result). -/
inductive Err where
  | keyError
  | attributeError
  | typeError
  | indexError
deriving DecidableEq, Repr

/-- `X.columns` of a DataFrame. -/
def DataFrame.columns (X : DataFrame) : List String :=
  X.cols.map (·.name)

/-- `X[name]`: the first column named `name`, if any. -/
def DataFrame.getCol? (X : DataFrame) (name : String) : Option Col :=
  X.cols.find? (fun c => c.name = name)

/-- `X[name] = values`: replace the cells of the column named `name`
in place (column order unchanged); used only on existing columns. -/
def DataFrame.setCol (X : DataFrame) (name : String) (vals : List Cell) : DataFrame :=
  ⟨X.cols.map (fun c => if c.name = name then { c with values := vals } else c)⟩

/-- `X.select_dtypes(include=incl)`: the columns whose dtype is in `incl`,
in original order, values unchanged. -/
def DataFrame.select_dtypes (X : DataFrame) (incl : List Dtype) : DataFrame :=
  ⟨X.cols.filter (fun c => c.dtype ∈ incl)⟩

/-- Number of occurrences of the cell `v` in `vs`. -/
def countVal (vs : List Cell) (v : Cell) : Nat :=
  (vs.filter (fun x => x = v)).length

/-- Deduplication worker: drop elements already in `seen`, keep the rest,
recording what has been kept. -/
def firstDedupAux (seen : List Cell) : List Cell → List Cell
  | [] => []
  | v :: rest =>
    if v ∈ seen then firstDedupAux seen rest
    else v :: firstDedupAux (v :: seen) rest

/-- The distinct elements of a list, keeping the first occurrence of each
(pandas keeps first-appearance order before sorting by frequency). -/
def firstDedup (l : List Cell) : List Cell :=
  firstDedupAux [] l

/-- Insert `v` into a list sorted by descending `cnt`, before the first
element of not-larger count (stable for ties). -/
def insertByCount (cnt : Cell → Nat) (v : Cell) : List Cell → List Cell
  | [] => [v]
  | w :: ws => if cnt w ≤ cnt v then v :: w :: ws else w :: insertByCount cnt v ws

/-- Stable insertion sort by descending `cnt`. -/
def sortDescByCount (cnt : Cell → Nat) : List Cell → List Cell
  | [] => []
  | v :: vs => insertByCount cnt v (sortDescByCount cnt vs)

/-- `series.value_counts().index.tolist()`: the distinct non-missing values
of a column, ordered by descending frequency (`NaN` excluded; ties keep
first-appearance order, one deterministic refinement of the unspecified
pandas tie order). -/
def value_counts (vs : List Cell) : List Cell :=
  let nonNA := vs.filter (fun x => x ≠ Cell.na)
  sortDescByCount (countVal nonNA) (firstDedup nonNA)

/-- `series.fillna(v)`. -/
def fillna (v : Cell) (vs : List Cell) : List Cell :=
  vs.map (fun x => if x = Cell.na then v else x)

/-- Python dict lookup `d[k]` (first pair with the key, if any). -/
def dictFind? {α : Type} : List (String × α) → String → Option α
  | [], _ => none
  | p :: d, k => if p.1 = k then some p.2 else dictFind? d k

/-! ## ColumnsSelector -/

/-- `ColumnsSelector(type=...)`: selects columns of one dtype tag. -/
structure ColumnsSelector where
  type : Dtype
deriving DecidableEq, Repr

/-- `ColumnsSelector.fit`: a no-op returning `self`. -/
def ColumnsSelector.fit (self : ColumnsSelector) (_X : DataFrame) : ColumnsSelector :=
  self

/-- `ColumnsSelector.transform`: `X.select_dtypes(include=[self.type])`. -/
def ColumnsSelector.transform (self : ColumnsSelector) (X : DataFrame) : DataFrame :=
  X.select_dtypes [self.type]

/-! ## CategoricalImputer -/

/-- `CategoricalImputer`: `columns` is `None` or a list (`__init__` default
`None`; `fit` overwrites `None` with `X.columns`); `fill` is the learned
fill map, absent (`none`) before `fit` (reading it then is an
`AttributeError`). -/
structure CategoricalImputer where
  columns : Option (List String)
  strategy : String
  fill : Option (List (String × Cell))
deriving DecidableEq, Repr

/-- `CategoricalImputer(columns=..., strategy=...)`. -/
def CategoricalImputer.mk0 (columns : Option (List String) := none)
    (strategy : String := "most_frequent") : CategoricalImputer :=
  ⟨columns, strategy, none⟩

/-- One element of the `most_frequent` fill comprehension:
`X[column].value_counts().index[0]`.  `X[column]` on a missing column is a
`KeyError`; `.index[0]` on an all-missing column is an `IndexError`. -/
def impFitStep (X : DataFrame) (c : String) : Except Err (String × Cell) :=
  match X.getCol? c with
  | none => Except.error Err.keyError
  | some col =>
    match value_counts col.values with
    | [] => Except.error Err.indexError
    | v :: _ => Except.ok (c, v)

/-- `CategoricalImputer.fit`: capture `X.columns` if `self.columns` is
`None`, then record per target column the head of `value_counts` (the most
frequent non-missing value) for strategy `most_frequent`, or the literal
string `'0'` otherwise. -/
def CategoricalImputer.fit (self : CategoricalImputer) (X : DataFrame) :
    Except Err CategoricalImputer :=
  if self.strategy = "most_frequent" then
    (self.columns.getD X.columns).mapM (impFitStep X) >>= fun fl =>
      Except.ok { self with columns := some (self.columns.getD X.columns),
                            fill := some fl }
  else
    Except.ok { self with columns := some (self.columns.getD X.columns),
                          fill := some ((self.columns.getD X.columns).map
                            (fun c => (c, Cell.str "0"))) }

/-- One loop iteration of `CategoricalImputer.transform`:
`X_copy[column] = X_copy[column].fillna(self.fill[column])`.  Reading a
missing column is a `KeyError`; `self.fill` absent (not fit) is an
`AttributeError`. -/
def impTransStep (fill : Option (List (String × Cell))) (acc : DataFrame) (c : String) :
    Except Err DataFrame :=
  match acc.getCol? c with
  | none => Except.error Err.keyError
  | some col =>
    match fill with
    | none => Except.error Err.attributeError
    | some fl =>
      match dictFind? fl c with
      | none => Except.error Err.keyError
      | some f => Except.ok (acc.setCol c (fillna f col.values))

/-- `CategoricalImputer.transform`: on a copy of `X`, for each configured
column replace missing entries by the recorded fill value.  `self.columns`
still `None` is a `TypeError` (iterating `None`). -/
def CategoricalImputer.transform (self : CategoricalImputer) (X : DataFrame) :
    Except Err DataFrame :=
  match self.columns with
  | none => Except.error Err.typeError
  | some cols => cols.foldlM (impTransStep self.fill) X

/-! ## CategoricalEncoder -/

/-- `CategoricalEncoder(dropFirst=...)`: `categories` is a Python dict
(insertion-ordered association list), initialised empty in `__init__`. -/
structure CategoricalEncoder where
  dropFirst : Bool
  categories : List (String × List Cell)
deriving DecidableEq, Repr

/-- Python dict assignment `d[k] = v`: update in place if the key exists,
else append. -/
def dictInsert {α : Type} (d : List (String × α)) (k : String) (v : α) :
    List (String × α) :=
  if d.any (fun p => p.1 = k) then
    d.map (fun p => if p.1 = k then (k, v) else p)
  else
    d ++ [(k, v)]


/-- One loop iteration of `CategoricalEncoder.fit`:
`self.categories[column] = train[column].value_counts().index.tolist()`. -/
def encFitStep (d : List (String × List Cell)) (c : Col) : List (String × List Cell) :=
  dictInsert d c.name (value_counts c.values)

/-- `CategoricalEncoder.fit`: restrict to object-dtype columns and record,
per column, `value_counts().index.tolist()` — the vocabulary in descending
frequency order.  The dict is updated per column, never cleared. -/
def CategoricalEncoder.fit (self : CategoricalEncoder) (X : DataFrame) :
    CategoricalEncoder :=
  let train := X.select_dtypes [Dtype.object]
  { self with categories := train.cols.foldl encFitStep self.categories }

/-- `astype(CategoricalDtype(cats))`: values outside the category list
become missing. -/
def castToCategories (cats : List Cell) (vals : List Cell) : List Cell :=
  vals.map (fun x => if x ∈ cats then x else Cell.na)

/-- Rendering of a category value inside an indicator column name. -/
def cellName : Cell → String
  | Cell.int i => toString i
  | Cell.float q => toString q
  | Cell.str s => s
  | Cell.na => "nan"

/-- The indicator columns `pd.get_dummies` produces for one categorical
column: one `int64` column `name_cat` per category, in category order,
the first omitted when `dropFirst`; a cell equal to the category gives 1,
anything else (including missing) gives 0. -/
def dummiesFor (dropFirst : Bool) (cname : String) (cats : List Cell)
    (vals : List Cell) : List Col :=
  let kept := if dropFirst then cats.drop 1 else cats
  kept.map (fun v =>
    ⟨cname ++ "_" ++ cellName v, Dtype.int64,
     vals.map (fun x => if x = v then Cell.int 1 else Cell.int 0)⟩)

/-- One loop iteration of `CategoricalEncoder.transform`: cast one column
to `CategoricalDtype(self.categories[column])`; a missing dict entry is a
`KeyError`. -/
def encTransStep (cat : List (String × List Cell)) (c : Col) :
    Except Err (String × List Cell × List Cell) :=
  match dictFind? cat c.name with
  | none => Except.error Err.keyError
  | some cats => Except.ok (c.name, cats, castToCategories cats c.values)

/-- `CategoricalEncoder.transform`: restrict a copy of `X` to object
columns, cast each to its fit-time `CategoricalDtype`, then
`pd.get_dummies(..., drop_first=dropFirst)`. -/
def CategoricalEncoder.transform (self : CategoricalEncoder) (X : DataFrame) :
    Except Err DataFrame :=
  (X.select_dtypes [Dtype.object]).cols.mapM (encTransStep self.categories) >>=
    fun casted =>
      Except.ok ⟨casted.flatMap (fun t => dummiesFor self.dropFirst t.1 t.2.1 t.2.2)⟩

/-! ## `get_pipeline` configuration -/

/-- The numeric-branch selector of `get_pipeline`:
`ColumnsSelector(type='int64')`. -/
def pipeline_num_selector : ColumnsSelector := ⟨Dtype.int64⟩

/-- The categorical-branch selector: `ColumnsSelector(type='object')`. -/
def pipeline_cat_selector : ColumnsSelector := ⟨Dtype.object⟩

/-- `missing_cols` of `get_pipeline`. -/
def missing_cols : List String := ["workclass", "occupation", "native-country"]

/-- The categorical-branch imputer:
`CategoricalImputer(columns=missing_cols)` (unfit). -/
def pipeline_cat_imputer : CategoricalImputer :=
  CategoricalImputer.mk0 (some missing_cols)

/-- The categorical-branch encoder: `CategoricalEncoder(dropFirst=True)`
(unfit: empty dict). -/
def pipeline_cat_encoder : CategoricalEncoder := ⟨true, []⟩

/-! ## Grid-search section of the script -/

/-- The state of a `GridSearchCV`: its configuration plus the search
results, absent until `fit` runs the search (reading `best_params_` or
`best_score_` before then is an `AttributeError`). -/
structure GridSearchCV where
  param_grid : List (String × List Cell)
  scoring : String
  cv : Nat
  best_params : Option (List (String × Cell))
  best_score : Option Cell
deriving DecidableEq, Repr

/-- `gs.best_params_`. -/
def GridSearchCV.best_params_read (g : GridSearchCV) :
    Except Err (List (String × Cell)) :=
  match g.best_params with
  | none => Except.error Err.attributeError
  | some p => Except.ok p

/-- `gs.best_score_`. -/
def GridSearchCV.best_score_read (g : GridSearchCV) : Except Err Cell :=
  match g.best_score with
  | none => Except.error Err.attributeError
  | some s => Except.ok s

/-- `param_range_fl = [1.0, 0.5, 0.1]`. -/
def param_range_fl : List Cell :=
  [Cell.float 1, Cell.float (1 / 2), Cell.float (1 / 10)]

/-- `grid_params_lr`. -/
def grid_params_lr : List (String × List Cell) :=
  [("model_lr__penalty", [Cell.str "l1", Cell.str "l2"]),
   ("model_lr__C", param_range_fl)]

/-- `gs_lr = GridSearchCV(estimator=pipeline_full, param_grid=grid_params_lr,
scoring='roc_auc', cv=10)` — freshly constructed, `fit` never called. -/
def gs_lr : GridSearchCV :=
  { param_grid := grid_params_lr
    scoring := "roc_auc"
    cv := 10
    best_params := none
    best_score := none }

/-- Lines 176–183 of the script: construct `gs_lr` and immediately read
`gs_lr.best_params_` and `gs_lr.best_score_`, with no intervening call to
`gs_lr.fit`. -/
def script_grid_search_section : Except Err (List (String × Cell) × Cell) := do
  let gs := gs_lr
  let p ← gs.best_params_read
  let s ← gs.best_score_read
  Except.ok (p, s)

/-! ## Lemmas: deduplication and frequency sort -/

theorem firstDedupAux_mem (l : List Cell) : ∀ (seen : List Cell) (v : Cell),
    v ∈ firstDedupAux seen l ↔ v ∈ l ∧ v ∉ seen := by
  induction l with
  | nil => intro seen v; simp [firstDedupAux]
  | cons w rest ih =>
    intro seen v
    by_cases hw : w ∈ seen
    · rw [firstDedupAux, if_pos hw, ih]
      constructor
      · rintro ⟨hv, hvs⟩; exact ⟨List.mem_cons_of_mem _ hv, hvs⟩
      · rintro ⟨hv, hvs⟩
        rcases List.mem_cons.mp hv with rfl | hv
        · exact absurd hw hvs
        · exact ⟨hv, hvs⟩
    · rw [firstDedupAux, if_neg hw]
      simp only [List.mem_cons, ih, List.mem_cons, not_or]
      constructor
      · rintro (rfl | ⟨hv, hvw, hvs⟩)
        · exact ⟨Or.inl rfl, hw⟩
        · exact ⟨Or.inr hv, hvs⟩
      · rintro ⟨rfl | hv, hvs⟩
        · exact Or.inl rfl
        · by_cases hvw : v = w
          · exact Or.inl hvw
          · exact Or.inr ⟨hv, hvw, hvs⟩

theorem firstDedupAux_nodup (l : List Cell) : ∀ (seen : List Cell),
    (firstDedupAux seen l).Nodup := by
  induction l with
  | nil => intro seen; simp [firstDedupAux]
  | cons w rest ih =>
    intro seen
    by_cases hw : w ∈ seen
    · rw [firstDedupAux, if_pos hw]; exact ih seen
    · rw [firstDedupAux, if_neg hw]
      refine List.nodup_cons.mpr ⟨?_, ih _⟩
      intro hmem
      exact ((firstDedupAux_mem _ _ _).mp hmem).2 (List.mem_cons_self _ _)

theorem firstDedup_mem (l : List Cell) (v : Cell) : v ∈ firstDedup l ↔ v ∈ l := by
  simp [firstDedup, firstDedupAux_mem]

theorem firstDedup_nodup (l : List Cell) : (firstDedup l).Nodup :=
  firstDedupAux_nodup l []

theorem mem_insertByCount (cnt : Cell → Nat) (v : Cell) (l : List Cell) (w : Cell) :
    w ∈ insertByCount cnt v l ↔ w = v ∨ w ∈ l := by
  induction l with
  | nil => simp [insertByCount]
  | cons x xs ih =>
    rw [insertByCount]
    split
    · simp [List.mem_cons]
    · simp only [List.mem_cons, ih]
      tauto

theorem insertByCount_nodup (cnt : Cell → Nat) (v : Cell) (l : List Cell)
    (h : l.Nodup) (hv : v ∉ l) : (insertByCount cnt v l).Nodup := by
  induction l with
  | nil => simp [insertByCount]
  | cons x xs ih =>
    rw [insertByCount]
    rcases List.nodup_cons.mp h with ⟨hx, hxs⟩
    have hvx : v ≠ x := fun he => hv (he ▸ List.mem_cons_self _ _)
    have hvxs : v ∉ xs := fun hm => hv (List.mem_cons_of_mem _ hm)
    split
    · exact List.nodup_cons.mpr ⟨by simp [List.mem_cons, hvx, hvxs], h⟩
    · refine List.nodup_cons.mpr ⟨?_, ih hxs hvxs⟩
      intro hmem
      rcases (mem_insertByCount _ _ _ _).mp hmem with rfl | hmem
      · exact hvx rfl
      · exact hx hmem

theorem insertByCount_sorted (cnt : Cell → Nat) (v : Cell) (l : List Cell)
    (h : l.Pairwise (fun a b => cnt b ≤ cnt a)) :
    (insertByCount cnt v l).Pairwise (fun a b => cnt b ≤ cnt a) := by
  induction l with
  | nil => simp [insertByCount]
  | cons x xs ih =>
    rw [insertByCount]
    rcases List.pairwise_cons.mp h with ⟨hx, hxs⟩
    split
    · rename_i hle
      refine List.pairwise_cons.mpr ⟨?_, h⟩
      intro b hb
      rcases List.mem_cons.mp hb with rfl | hb
      · exact hle
      · exact le_trans (hx b hb) hle
    · rename_i hgt
      push_neg at hgt
      refine List.pairwise_cons.mpr ⟨?_, ih hxs⟩
      intro b hb
      rcases (mem_insertByCount _ _ _ _).mp hb with rfl | hb
      · exact le_of_lt hgt
      · exact hx b hb

theorem mem_sortDescByCount (cnt : Cell → Nat) (l : List Cell) (w : Cell) :
    w ∈ sortDescByCount cnt l ↔ w ∈ l := by
  induction l with
  | nil => simp [sortDescByCount]
  | cons x xs ih =>
    rw [sortDescByCount, mem_insertByCount, ih, List.mem_cons]

theorem sortDescByCount_nodup (cnt : Cell → Nat) (l : List Cell) (h : l.Nodup) :
    (sortDescByCount cnt l).Nodup := by
  induction l with
  | nil => simp [sortDescByCount]
  | cons x xs ih =>
    rcases List.nodup_cons.mp h with ⟨hx, hxs⟩
    rw [sortDescByCount]
    exact insertByCount_nodup _ _ _ (ih hxs) (fun hm => hx ((mem_sortDescByCount _ _ _).mp hm))

theorem sortDescByCount_sorted (cnt : Cell → Nat) (l : List Cell) :
    (sortDescByCount cnt l).Pairwise (fun a b => cnt b ≤ cnt a) := by
  induction l with
  | nil => simp [sortDescByCount]
  | cons x xs ih =>
    rw [sortDescByCount]
    exact insertByCount_sorted _ _ _ ih

theorem countVal_filter_ne_na (l : List Cell) (v : Cell) (hv : v ≠ Cell.na) :
    countVal (l.filter (fun x => x ≠ Cell.na)) v = countVal l v := by
  unfold countVal
  rw [List.filter_filter]
  congr 1
  apply List.filter_congr
  intro a _
  by_cases ha : a = v
  · subst ha
    simp [hv]
  · simp [ha]

theorem value_counts_mem (vs : List Cell) (v : Cell) :
    v ∈ value_counts vs ↔ v ∈ vs ∧ v ≠ Cell.na := by
  rw [value_counts]
  simp only [mem_sortDescByCount, firstDedup_mem, List.mem_filter, decide_eq_true_eq]

theorem value_counts_na_not_mem (vs : List Cell) : Cell.na ∉ value_counts vs := by
  intro h
  exact ((value_counts_mem vs Cell.na).mp h).2 rfl

theorem value_counts_nodup (vs : List Cell) : (value_counts vs).Nodup := by
  rw [value_counts]
  exact sortDescByCount_nodup _ _ (firstDedup_nodup _)

theorem value_counts_sorted (vs : List Cell) :
    (value_counts vs).Pairwise (fun a b => countVal vs b ≤ countVal vs a) := by
  have h := sortDescByCount_sorted (countVal (vs.filter (fun x => x ≠ Cell.na)))
    (firstDedup (vs.filter (fun x => x ≠ Cell.na)))
  rw [value_counts]
  refine h.imp_of_mem ?_
  intro a b ha hb hab
  have ha' : a ≠ Cell.na := by
    have := (firstDedup_mem _ _).mp ((mem_sortDescByCount _ _ _).mp ha)
    exact (by simpa using (List.mem_filter.mp this).2)
  have hb' : b ≠ Cell.na := by
    have := (firstDedup_mem _ _).mp ((mem_sortDescByCount _ _ _).mp hb)
    exact (by simpa using (List.mem_filter.mp this).2)
  rwa [countVal_filter_ne_na _ _ ha', countVal_filter_ne_na _ _ hb'] at hab

/-- The head of `value_counts` is a most frequent non-missing value. -/
theorem value_counts_head_spec (vs : List Cell) (w : Cell) (rest : List Cell)
    (h : value_counts vs = w :: rest) :
    w ∈ vs ∧ w ≠ Cell.na ∧
      ∀ u ∈ vs, u ≠ Cell.na → countVal vs u ≤ countVal vs w := by
  have hwmem : w ∈ value_counts vs := by rw [h]; exact List.mem_cons_self _ _
  rcases (value_counts_mem vs w).mp hwmem with ⟨hw1, hw2⟩
  refine ⟨hw1, hw2, ?_⟩
  intro u hu huna
  have humem : u ∈ value_counts vs := (value_counts_mem vs u).mpr ⟨hu, huna⟩
  rw [h] at humem
  rcases List.mem_cons.mp humem with rfl | humem
  · exact le_refl _
  · have hsorted := value_counts_sorted vs
    rw [h] at hsorted
    exact (List.pairwise_cons.mp hsorted).1 u humem

/-! ## Lemmas: Python dicts -/

/-- The keys of an association-list dict, in order. -/
def dictKeys {α : Type} (d : List (String × α)) : List String :=
  d.map Prod.fst

theorem dictFind?_map_update_self {α : Type} (d : List (String × α)) (k : String) (v : α)
    (h : d.any (fun p => p.1 = k)) :
    dictFind? (d.map (fun p => if p.1 = k then (k, v) else p)) k = some v := by
  induction d with
  | nil => simp at h
  | cons p d ih =>
    by_cases hp : p.1 = k
    · rw [List.map_cons, if_pos hp]
      simp [dictFind?]
    · rw [List.map_cons, if_neg hp]
      rw [dictFind?, if_neg hp]
      apply ih
      simp only [List.any_cons, Bool.or_eq_true, decide_eq_true_eq] at h
      rcases h with h | h
      · exact absurd h hp
      · exact h

theorem dictFind?_map_update_ne {α : Type} (d : List (String × α)) (k k' : String) (v : α)
    (h : k ≠ k') :
    dictFind? (d.map (fun p => if p.1 = k then (k, v) else p)) k' = dictFind? d k' := by
  induction d with
  | nil => rfl
  | cons p d ih =>
    by_cases hp : p.1 = k
    · simp only [List.map_cons, if_pos hp, dictFind?]
      rw [if_neg h, if_neg (hp ▸ h), ih]
    · simp only [List.map_cons, if_neg hp, dictFind?]
      by_cases hp' : p.1 = k'
      · rw [if_pos hp', if_pos hp']
      · rw [if_neg hp', if_neg hp', ih]

theorem dictFind?_append_ne {α : Type} (d : List (String × α)) (k k' : String) (v : α)
    (h : k ≠ k') :
    dictFind? (d ++ [(k, v)]) k' = dictFind? d k' := by
  induction d with
  | nil => simp [dictFind?, h]
  | cons p d ih =>
    rw [List.cons_append, dictFind?, dictFind?]
    by_cases hp : p.1 = k'
    · rw [if_pos hp, if_pos hp]
    · rw [if_neg hp, if_neg hp, ih]

theorem dictFind?_eq_none_of_not_any {α : Type} (d : List (String × α)) (k : String)
    (h : ¬ d.any (fun p => p.1 = k)) : dictFind? d k = none := by
  induction d with
  | nil => rfl
  | cons p d ih =>
    simp only [List.any_cons, Bool.or_eq_true, decide_eq_true_eq, not_or] at h
    simp only [dictFind?, if_neg h.1]
    exact ih h.2

theorem dictFind?_dictInsert_self {α : Type} (d : List (String × α)) (k : String) (v : α) :
    dictFind? (dictInsert d k v) k = some v := by
  unfold dictInsert
  split
  · exact dictFind?_map_update_self d k v (by assumption)
  · rename_i h
    induction d with
    | nil => simp [dictFind?]
    | cons p d ih =>
      simp only [List.any_cons, Bool.or_eq_true, decide_eq_true_eq, not_or] at h
      simp only [List.cons_append, dictFind?, if_neg h.1]
      exact ih h.2

theorem dictFind?_dictInsert_ne {α : Type} (d : List (String × α)) (k k' : String) (v : α)
    (h : k ≠ k') :
    dictFind? (dictInsert d k v) k' = dictFind? d k' := by
  unfold dictInsert
  split
  · exact dictFind?_map_update_ne d k k' v h
  · exact dictFind?_append_ne d k k' v h

theorem dictKeys_map_update {α : Type} (d : List (String × α)) (k : String) (v : α) :
    dictKeys (d.map (fun p => if p.1 = k then (k, v) else p)) = dictKeys d := by
  unfold dictKeys
  rw [List.map_map]
  apply List.map_congr_left
  intro p _
  by_cases hp : p.1 = k
  · simp [hp]
  · simp [hp]

theorem mem_dictKeys_iff_any {α : Type} (d : List (String × α)) (k : String) :
    k ∈ dictKeys d ↔ d.any (fun p => p.1 = k) = true := by
  unfold dictKeys
  simp only [List.mem_map, List.any_eq_true, decide_eq_true_eq]

theorem mem_dictKeys_dictInsert {α : Type} (d : List (String × α)) (k k' : String) (v : α) :
    k' ∈ dictKeys (dictInsert d k v) ↔ k' = k ∨ k' ∈ dictKeys d := by
  unfold dictInsert
  split
  · rename_i h
    rw [dictKeys_map_update]
    constructor
    · exact Or.inr
    · rintro (rfl | hk)
      · exact (mem_dictKeys_iff_any d k').mpr h
      · exact hk
  · unfold dictKeys
    simp only [List.map_append, List.map_cons, List.map_nil, List.mem_append,
      List.mem_singleton]
    constructor
    · rintro (hk | rfl)
      · exact Or.inr hk
      · exact Or.inl rfl
    · rintro (rfl | hk)
      · exact Or.inr rfl
      · exact Or.inl hk

theorem dictKeys_nodup_dictInsert {α : Type} (d : List (String × α)) (k : String) (v : α)
    (h : (dictKeys d).Nodup) : (dictKeys (dictInsert d k v)).Nodup := by
  unfold dictInsert
  split
  · rwa [dictKeys_map_update]
  · rename_i hany
    unfold dictKeys
    rw [List.map_append]
    rw [List.nodup_append]
    refine ⟨h, by simp, ?_⟩
    intro a ha hb
    simp only [List.map_cons, List.map_nil, List.mem_singleton] at hb
    subst hb
    exact hany ((mem_dictKeys_iff_any d a).mp ha)

theorem map_update_id_of_not_mem {α : Type} (d : List (String × α)) (k : String) (v : α)
    (h : k ∉ dictKeys d) :
    d.map (fun p => if p.1 = k then (k, v) else p) = d := by
  induction d with
  | nil => rfl
  | cons p d ih =>
    simp only [dictKeys, List.map_cons, List.mem_cons, not_or] at h
    rw [List.map_cons, if_neg (fun hp => h.1 hp.symm)]
    rw [ih]
    intro hm
    exact h.2 hm

/-- Re-assigning a key its current value leaves a dict with distinct keys
unchanged. -/
theorem dictInsert_noop {α : Type} (d : List (String × α)) (k : String) (v : α)
    (hnd : (dictKeys d).Nodup) (hfind : dictFind? d k = some v) :
    dictInsert d k v = d := by
  induction d with
  | nil => simp [dictFind?] at hfind
  | cons p d ih =>
    rcases List.nodup_cons.mp hnd with ⟨hp, hd⟩
    by_cases hk : p.1 = k
    · rw [dictFind?, if_pos hk] at hfind
      have hv : p.2 = v := Option.some_injective _ hfind
      unfold dictInsert
      rw [if_pos (by simp [List.any_cons, hk])]
      rw [List.map_cons, if_pos hk]
      have h1 : (k, v) = p := by rw [← hk, ← hv]
      have h2 : List.map (fun q => if q.1 = k then (k, v) else q) d = d := by
        apply map_update_id_of_not_mem
        rw [← hk]
        exact hp
      rw [h2, h1]
    · rw [dictFind?, if_neg hk] at hfind
      have hrec := ih hd hfind
      unfold dictInsert at hrec ⊢
      by_cases hany : d.any (fun q => q.1 = k)
      · rw [if_pos (by simp [List.any_cons, hk, hany])]
        rw [List.map_cons, if_neg hk]
        rw [if_pos hany] at hrec
        rw [hrec]
      · rw [if_neg (by simp [List.any_cons, hk, hany])]
        rw [if_neg hany] at hrec
        rw [List.cons_append, hrec]

/-! ## Lemmas: encoder `fit` -/

theorem dictFind?_encFold_not_mem (L : List Col) (k : String) :
    ∀ d, k ∉ L.map (·.name) →
      dictFind? (List.foldl encFitStep d L) k = dictFind? d k := by
  induction L with
  | nil => intro d _; rfl
  | cons c L ih =>
    intro d h
    rw [List.map_cons, List.mem_cons, not_or] at h
    rw [List.foldl_cons, ih _ h.2]
    exact dictFind?_dictInsert_ne _ _ _ _ (fun he => h.1 he.symm)

theorem dictFind?_encFold_mem (c : Col) : ∀ (L : List Col), (L.map (·.name)).Nodup →
    c ∈ L → ∀ d,
      dictFind? (List.foldl encFitStep d L) c.name = some (value_counts c.values) := by
  intro L
  induction L with
  | nil => intro _ hc; cases hc
  | cons c' L ih =>
    intro hnd hc d
    rw [List.map_cons, List.nodup_cons] at hnd
    rw [List.foldl_cons]
    rcases List.mem_cons.mp hc with rfl | hc'
    · rw [dictFind?_encFold_not_mem L c.name _ hnd.1]
      exact dictFind?_dictInsert_self _ _ _
    · exact ih hnd.2 hc' _

theorem dictFind?_encFold_some_inv (L : List Col) (k : String) (cats : List Cell) :
    ∀ d, dictFind? (List.foldl encFitStep d L) k = some cats →
      (∃ c ∈ L, c.name = k ∧ cats = value_counts c.values) ∨ dictFind? d k = some cats := by
  induction L with
  | nil => intro d h; exact Or.inr h
  | cons c L ih =>
    intro d h
    rw [List.foldl_cons] at h
    rcases ih _ h with ⟨c', hc', hn, hv⟩ | h'
    · exact Or.inl ⟨c', List.mem_cons_of_mem _ hc', hn, hv⟩
    · unfold encFitStep at h'
      by_cases hk : c.name = k
      · left
        refine ⟨c, List.mem_cons_self _ _, hk, ?_⟩
        have hself := dictFind?_dictInsert_self d c.name (value_counts c.values)
        rw [← hk] at h'
        rw [hself] at h'
        exact (Option.some_injective _ h').symm
      · right
        rwa [dictFind?_dictInsert_ne d c.name k _ hk] at h'

theorem dictKeys_nodup_encFold (L : List Col) :
    ∀ d, (dictKeys d).Nodup → (dictKeys (List.foldl encFitStep d L)).Nodup := by
  induction L with
  | nil => intro d hd; exact hd
  | cons c L ih =>
    intro d hd
    rw [List.foldl_cons]
    exact ih _ (dictKeys_nodup_dictInsert d c.name _ hd)

theorem mem_dictKeys_encFold (L : List Col) (k : String) :
    ∀ d, k ∈ dictKeys (List.foldl encFitStep d L) ↔
      k ∈ L.map (·.name) ∨ k ∈ dictKeys d := by
  induction L with
  | nil => intro d; simp
  | cons c L ih =>
    intro d
    rw [List.foldl_cons, ih]
    unfold encFitStep
    rw [mem_dictKeys_dictInsert, List.map_cons, List.mem_cons]
    tauto

theorem encFold_idem : ∀ (L : List Col), (L.map (·.name)).Nodup →
    ∀ d, (dictKeys d).Nodup →
      List.foldl encFitStep (List.foldl encFitStep d L) L = List.foldl encFitStep d L := by
  intro L
  induction L with
  | nil => intro _ d _; rfl
  | cons c L ih =>
    intro hL d hd
    rw [List.map_cons, List.nodup_cons] at hL
    rw [List.foldl_cons, List.foldl_cons]
    have hfind : dictFind? (List.foldl encFitStep (encFitStep d c) L) c.name
        = some (value_counts c.values) := by
      rw [dictFind?_encFold_not_mem L c.name _ hL.1]
      exact dictFind?_dictInsert_self _ _ _
    have hndR : (dictKeys (List.foldl encFitStep (encFitStep d c) L)).Nodup :=
      dictKeys_nodup_encFold L _ (dictKeys_nodup_dictInsert d c.name _ hd)
    have hstep : encFitStep (List.foldl encFitStep (encFitStep d c) L) c
        = List.foldl encFitStep (encFitStep d c) L := by
      unfold encFitStep
      exact dictInsert_noop _ c.name _ hndR hfind
    rw [hstep]
    exact ih hL.2 _ (dictKeys_nodup_dictInsert d c.name _ hd)

/-! ## Lemmas: DataFrame plumbing -/

theorem setCol_columns (X : DataFrame) (n : String) (vs : List Cell) :
    (X.setCol n vs).columns = X.columns := by
  unfold DataFrame.setCol DataFrame.columns
  rw [List.map_map]
  apply List.map_congr_left
  intro c _
  by_cases hc : c.name = n
  · simp [hc]
  · simp [hc]

theorem getCol?_eq_none_iff (X : DataFrame) (n : String) :
    X.getCol? n = none ↔ n ∉ X.columns := by
  unfold DataFrame.getCol? DataFrame.columns
  rw [List.find?_eq_none]
  simp

theorem find?_name_of_mem_nodup (col : Col) : ∀ (cs : List Col),
    (cs.map (·.name)).Nodup → col ∈ cs →
      cs.find? (fun c => c.name = col.name) = some col := by
  intro cs
  induction cs with
  | nil => intro _ hc; cases hc
  | cons c cs ih =>
    intro hnd hc
    rw [List.map_cons, List.nodup_cons] at hnd
    rcases List.mem_cons.mp hc with rfl | hc'
    · rw [List.find?_cons_of_pos _ (by simp)]
    · rw [List.find?_cons_of_neg]
      · exact ih hnd.2 hc'
      · simp only [decide_eq_true_eq]
        intro he
        exact hnd.1 (by rw [he]; exact List.mem_map_of_mem _ hc')

theorem getCol?_of_mem_nodup (X : DataFrame) (hnd : X.columns.Nodup) (col : Col)
    (hc : col ∈ X.cols) : X.getCol? col.name = some col :=
  find?_name_of_mem_nodup col X.cols hnd hc

theorem select_names_sublist (X : DataFrame) (incl : List Dtype) :
    ((X.select_dtypes incl).cols.map (·.name)).Sublist X.columns :=
  List.Sublist.map (·.name) (List.filter_sublist X.cols)

/-! ## Lemmas: `Except` plumbing -/

theorem except_bind_ok {ε α β : Type} (a : α) (f : α → Except ε β) :
    (Except.ok a >>= f) = f a := rfl

theorem except_bind_error {ε α β : Type} (e : ε) (f : α → Except ε β) :
    ((Except.error e : Except ε α) >>= f) = Except.error e := rfl

theorem except_pure_eq_ok {ε α : Type} (a : α) :
    (pure a : Except ε α) = Except.ok a := rfl

/-! ## Lemmas: encoder `transform` -/

theorem encMapM_ok_inv (cat : List (String × List Cell)) :
    ∀ (L : List Col) (lst : List (String × List Cell × List Cell)),
      L.mapM (encTransStep cat) = Except.ok lst →
        (∀ c ∈ L, (dictFind? cat c.name).isSome) ∧
        lst = L.map (fun c => (c.name, (dictFind? cat c.name).getD [],
          castToCategories ((dictFind? cat c.name).getD []) c.values)) := by
  intro L
  induction L with
  | nil =>
    intro lst h
    rw [List.mapM_nil, except_pure_eq_ok] at h
    refine ⟨?_, ?_⟩
    · intro c hc; cases hc
    · exact (Except.ok.inj h).symm
  | cons c L ih =>
    intro lst h
    rw [List.mapM_cons] at h
    cases hfind : dictFind? cat c.name with
    | none =>
      have hstep : encTransStep cat c = Except.error Err.keyError := by
        unfold encTransStep; rw [hfind]
      rw [hstep, except_bind_error] at h
      cases h
    | some cats =>
      have hstep : encTransStep cat c
          = Except.ok (c.name, cats, castToCategories cats c.values) := by
        unfold encTransStep; rw [hfind]
      rw [hstep, except_bind_ok] at h
      cases hm : L.mapM (encTransStep cat) with
      | error er =>
        rw [hm, except_bind_error] at h
        cases h
      | ok ys =>
        rw [hm, except_bind_ok, except_pure_eq_ok] at h
        rcases ih ys hm with ⟨hall, hys⟩
        constructor
        · intro c' hc'
          rcases List.mem_cons.mp hc' with rfl | hc'
          · rw [hfind]; rfl
          · exact hall c' hc'
        · have hlst : lst = (c.name, cats, castToCategories cats c.values) :: ys :=
            (Except.ok.inj h).symm
          rw [hlst, hys, List.map_cons, hfind]
          rfl

theorem encMapM_ok_of_all (cat : List (String × List Cell)) :
    ∀ (L : List Col), (∀ c ∈ L, (dictFind? cat c.name).isSome) →
      ∃ lst, L.mapM (encTransStep cat) = Except.ok lst := by
  intro L
  induction L with
  | nil => intro _; exact ⟨[], rfl⟩
  | cons c L ih =>
    intro h
    obtain ⟨cats, hcats⟩ := Option.isSome_iff_exists.mp (h c (List.mem_cons_self _ _))
    obtain ⟨lst, hlst⟩ := ih (fun c' hc' => h c' (List.mem_cons_of_mem _ hc'))
    refine ⟨(c.name, cats, castToCategories cats c.values) :: lst, ?_⟩
    have hstep : encTransStep cat c
        = Except.ok (c.name, cats, castToCategories cats c.values) := by
      unfold encTransStep; rw [hcats]
    rw [List.mapM_cons, hstep, except_bind_ok, hlst, except_bind_ok, except_pure_eq_ok]

theorem encMapM_error_of_missing (cat : List (String × List Cell)) :
    ∀ (L : List Col), (∃ c ∈ L, dictFind? cat c.name = none) →
      L.mapM (encTransStep cat) = Except.error Err.keyError := by
  intro L
  induction L with
  | nil => rintro ⟨c, hc, _⟩; cases hc
  | cons c L ih =>
    rintro ⟨c', hc', hmiss⟩
    rw [List.mapM_cons]
    cases hfind : dictFind? cat c.name with
    | none =>
      have hstep : encTransStep cat c = Except.error Err.keyError := by
        unfold encTransStep; rw [hfind]
      rw [hstep, except_bind_error]
    | some cats =>
      have hc'' : c' ∈ L := by
        rcases List.mem_cons.mp hc' with rfl | h
        · rw [hmiss] at hfind; cases hfind
        · exact h
      have hstep : encTransStep cat c
          = Except.ok (c.name, cats, castToCategories cats c.values) := by
        unfold encTransStep; rw [hfind]
      rw [hstep, except_bind_ok, ih ⟨c', hc'', hmiss⟩, except_bind_error]

/-- Successful `CategoricalEncoder.transform` fully characterised: every
object column of the input has a fit-time vocabulary, and the output is the
concatenation, over the object columns in input order, of the `get_dummies`
indicator blocks built from those vocabularies. -/
theorem encTransform_ok_inv (e : CategoricalEncoder) (X Y : DataFrame)
    (h : e.transform X = Except.ok Y) :
    (∀ col ∈ (X.select_dtypes [Dtype.object]).cols, (dictFind? e.categories col.name).isSome) ∧
    Y.cols = (X.select_dtypes [Dtype.object]).cols.flatMap (fun col =>
      dummiesFor e.dropFirst col.name ((dictFind? e.categories col.name).getD [])
        (castToCategories ((dictFind? e.categories col.name).getD []) col.values)) := by
  unfold CategoricalEncoder.transform at h
  cases hm : (X.select_dtypes [Dtype.object]).cols.mapM (encTransStep e.categories) with
  | error er =>
    rw [hm, except_bind_error] at h
    cases h
  | ok lst =>
    rw [hm, except_bind_ok] at h
    rcases encMapM_ok_inv _ _ _ hm with ⟨hall, hlst⟩
    refine ⟨hall, ?_⟩
    have hY : (⟨lst.flatMap (fun t => dummiesFor e.dropFirst t.1 t.2.1 t.2.2)⟩ : DataFrame) = Y :=
      Except.ok.inj h
    rw [← hY, hlst, List.flatMap_map]

theorem encTransform_ok_of_all (e : CategoricalEncoder) (X : DataFrame)
    (h : ∀ col ∈ (X.select_dtypes [Dtype.object]).cols,
      (dictFind? e.categories col.name).isSome) :
    ∃ Y, e.transform X = Except.ok Y := by
  obtain ⟨lst, hlst⟩ := encMapM_ok_of_all e.categories _ h
  refine ⟨⟨lst.flatMap (fun t => dummiesFor e.dropFirst t.1 t.2.1 t.2.2)⟩, ?_⟩
  unfold CategoricalEncoder.transform
  rw [hlst, except_bind_ok]

theorem encTransform_error_of_missing (e : CategoricalEncoder) (X : DataFrame)
    (col0 : Col) (h0 : col0 ∈ X.cols) (hd : col0.dtype = Dtype.object)
    (hmiss : dictFind? e.categories col0.name = none) :
    e.transform X = Except.error Err.keyError := by
  unfold CategoricalEncoder.transform
  have hmem : col0 ∈ (X.select_dtypes [Dtype.object]).cols := by
    unfold DataFrame.select_dtypes
    exact List.mem_filter.mpr ⟨h0, by simp [hd]⟩
  rw [encMapM_error_of_missing e.categories _ ⟨col0, hmem, hmiss⟩, except_bind_error]

/-! ## Lemmas: imputer `transform` -/

theorem getCol?_isSome_iff (X : DataFrame) (n : String) :
    (X.getCol? n).isSome ↔ n ∈ X.columns := by
  unfold DataFrame.getCol? DataFrame.columns
  rw [List.find?_isSome]
  simp

theorem getCol?_some_mem (X : DataFrame) (n : String) (col : Col)
    (h : X.getCol? n = some col) : col ∈ X.cols ∧ col.name = n := by
  unfold DataFrame.getCol? at h
  refine ⟨List.mem_of_find?_eq_some h, ?_⟩
  have := List.find?_some h
  simpa using this

theorem impTransStep_ok_getCol (fill : Option (List (String × Cell))) (acc : DataFrame)
    (c : String) (acc1 : DataFrame) (h : impTransStep fill acc c = Except.ok acc1) :
    (acc.getCol? c).isSome := by
  unfold impTransStep at h
  split at h
  · cases h
  · rename_i col heq
    rw [heq]
    rfl

theorem impTransStep_ok_columns (fill : Option (List (String × Cell))) (acc : DataFrame)
    (c : String) (acc1 : DataFrame) (h : impTransStep fill acc c = Except.ok acc1) :
    acc1.columns = acc.columns := by
  unfold impTransStep at h
  split at h
  · cases h
  · split at h
    · cases h
    · split at h
      · cases h
      · rw [← Except.ok.inj h]
        exact setCol_columns _ _ _

theorem impFold_ok_columns (fill : Option (List (String × Cell))) :
    ∀ (cs : List String) (acc Y : DataFrame),
      List.foldlM (impTransStep fill) acc cs = Except.ok Y →
        ∀ c ∈ cs, c ∈ acc.columns := by
  intro cs
  induction cs with
  | nil => intro _ _ _ c hc; cases hc
  | cons c cs ih =>
    intro acc Y h c' hc'
    rw [List.foldlM_cons] at h
    cases hstep : impTransStep fill acc c with
    | error er => rw [hstep, except_bind_error] at h; cases h
    | ok acc1 =>
      rw [hstep, except_bind_ok] at h
      rcases List.mem_cons.mp hc' with rfl | hc'
      · have hs := impTransStep_ok_getCol fill acc c' acc1 hstep
        obtain ⟨col, hg⟩ := Option.isSome_iff_exists.mp hs
        rcases getCol?_some_mem acc c' col hg with ⟨hmem, hname⟩
        rw [← hname]
        exact List.mem_map_of_mem _ hmem
      · have := ih acc1 Y h c' hc'
        rwa [impTransStep_ok_columns fill acc c acc1 hstep] at this

theorem impTransform_error_of_missing (imp : CategoricalImputer) (cs : List String)
    (X : DataFrame) (hcols : imp.columns = some cs) (c : String) (hc : c ∈ cs)
    (hmiss : X.getCol? c = none) : ∃ er, imp.transform X = Except.error er := by
  unfold CategoricalImputer.transform
  rw [hcols]
  cases hres : List.foldlM (impTransStep imp.fill) X cs with
  | error er => exact ⟨er, hres⟩
  | ok Y =>
    exfalso
    have hmem := impFold_ok_columns imp.fill cs X Y hres c hc
    rw [getCol?_eq_none_iff] at hmiss
    exact hmiss hmem

/-- The pure result of a successful imputer transform: per column of `X`,
fill missing entries when the column is targeted and a fill value exists. -/
def applyFill (fl : List (String × Cell)) (cs : List String) (X : DataFrame) : DataFrame :=
  ⟨X.cols.map (fun col =>
    if col.name ∈ cs then
      match dictFind? fl col.name with
      | some w => { col with values := fillna w col.values }
      | none => col
    else col)⟩

theorem fillna_idem (w : Cell) (vs : List Cell) : fillna w (fillna w vs) = fillna w vs := by
  unfold fillna
  rw [List.map_map]
  apply List.map_congr_left
  intro x _
  simp only [Function.comp_apply]
  by_cases hx : x = Cell.na
  · by_cases hw : w = Cell.na
    · simp [hx, hw]
    · simp [hx, hw]
  · simp [hx]

theorem applyFill_nil (fl : List (String × Cell)) (X : DataFrame) :
    applyFill fl [] X = X := by
  unfold applyFill
  simp

theorem applyFill_setCol_shift (fl : List (String × Cell)) (cs : List String) (c : String)
    (X : DataFrame) (col : Col) (w : Cell) (hnd : X.columns.Nodup)
    (hcol : X.getCol? c = some col) (hw : dictFind? fl c = some w) :
    applyFill fl cs (X.setCol c (fillna w col.values)) = applyFill fl (c :: cs) X := by
  unfold applyFill DataFrame.setCol
  congr 1
  rw [List.map_map]
  apply List.map_congr_left
  intro cc hcc
  simp only [Function.comp_apply]
  by_cases hcn : cc.name = c
  · have hgc : X.getCol? cc.name = some cc := getCol?_of_mem_nodup X hnd cc hcc
    rw [hcn, hcol] at hgc
    have hcceq : col = cc := Option.some_injective _ hgc
    subst hcceq
    by_cases hcs : c ∈ cs
    · simp [hcn, hw, hcs, fillna_idem]
    · simp [hcn, hw, hcs]
  · rw [if_neg hcn]
    have hmemiff : cc.name ∈ c :: cs ↔ cc.name ∈ cs := by
      rw [List.mem_cons]
      constructor
      · rintro (he | hm)
        · exact absurd he hcn
        · exact hm
      · exact Or.inr
    by_cases hcs : cc.name ∈ cs
    · rw [if_pos hcs, if_pos (hmemiff.mpr hcs)]
    · rw [if_neg hcs, if_neg (fun hm => hcs (hmemiff.mp hm))]

theorem impFold_applyFill (fl : List (String × Cell)) :
    ∀ (cs : List String) (X : DataFrame), X.columns.Nodup →
      (∀ c ∈ cs, (X.getCol? c).isSome) → (∀ c ∈ cs, (dictFind? fl c).isSome) →
      List.foldlM (impTransStep (some fl)) X cs = Except.ok (applyFill fl cs X) := by
  intro cs
  induction cs with
  | nil =>
    intro X _ _ _
    rw [List.foldlM_nil, applyFill_nil, except_pure_eq_ok]
  | cons c cs ih =>
    intro X hnd hcols hfl
    obtain ⟨col, hcol⟩ := Option.isSome_iff_exists.mp (hcols c (List.mem_cons_self _ _))
    obtain ⟨w, hw⟩ := Option.isSome_iff_exists.mp (hfl c (List.mem_cons_self _ _))
    rw [List.foldlM_cons]
    have hstep : impTransStep (some fl) X c
        = Except.ok (X.setCol c (fillna w col.values)) := by
      simp only [impTransStep, hcol, hw]
    rw [hstep, except_bind_ok]
    have hnd1 : (X.setCol c (fillna w col.values)).columns.Nodup := by
      rw [setCol_columns]; exact hnd
    have hcols1 : ∀ c' ∈ cs, ((X.setCol c (fillna w col.values)).getCol? c').isSome := by
      intro c' hc'
      rw [getCol?_isSome_iff, setCol_columns, ← getCol?_isSome_iff]
      exact hcols c' (List.mem_cons_of_mem _ hc')
    rw [ih (X.setCol c (fillna w col.values)) hnd1 hcols1
      (fun c' hc' => hfl c' (List.mem_cons_of_mem _ hc'))]
    rw [applyFill_setCol_shift fl cs c X col w hnd hcol hw]

theorem impTransform_ok_applyFill (st : String) (fl : List (String × Cell))
    (cs : List String) (X : DataFrame) (hnd : X.columns.Nodup)
    (hcols : ∀ c ∈ cs, (X.getCol? c).isSome) (hfl : ∀ c ∈ cs, (dictFind? fl c).isSome) :
    CategoricalImputer.transform ⟨some cs, st, some fl⟩ X
      = Except.ok (applyFill fl cs X) :=
  impFold_applyFill fl cs X hnd hcols hfl

/-! ## Lemmas: imputer `fit` -/

theorem impFitStep_ok_spec (X : DataFrame) (c : String) (p : String × Cell)
    (h : impFitStep X c = Except.ok p) :
    p.1 = c ∧ ∃ col, X.getCol? c = some col ∧ p.2 ∈ col.values ∧ p.2 ≠ Cell.na ∧
      ∀ u ∈ col.values, u ≠ Cell.na → countVal col.values u ≤ countVal col.values p.2 := by
  unfold impFitStep at h
  split at h
  · cases h
  · rename_i col heq
    split at h
    · cases h
    · rename_i v rest hvc
      have hp : (c, v) = p := Except.ok.inj h
      rcases value_counts_head_spec col.values v rest hvc with ⟨hv1, hv2, hv3⟩
      rw [← hp]
      exact ⟨rfl, col, heq, hv1, hv2, hv3⟩

theorem impFitMapM_find (X : DataFrame) :
    ∀ (cs : List String) (fl : List (String × Cell)),
      cs.mapM (impFitStep X) = Except.ok fl →
        ∀ c ∈ cs, ∃ w, dictFind? fl c = some w ∧ impFitStep X c = Except.ok (c, w) := by
  intro cs
  induction cs with
  | nil => intro fl _ c hc; cases hc
  | cons c cs ih =>
    intro fl h c' hc'
    rw [List.mapM_cons] at h
    cases hstep : impFitStep X c with
    | error er => rw [hstep, except_bind_error] at h; cases h
    | ok p =>
      rw [hstep, except_bind_ok] at h
      cases hm : cs.mapM (impFitStep X) with
      | error er => rw [hm, except_bind_error] at h; cases h
      | ok ys =>
        rw [hm, except_bind_ok, except_pure_eq_ok] at h
        have hfl : fl = p :: ys := (Except.ok.inj h).symm
        have hp1 : p.1 = c := (impFitStep_ok_spec X c p hstep).1
        subst hfl
        by_cases hcc : c' = c
        · subst hcc
          refine ⟨p.2, ?_, ?_⟩
          · unfold dictFind?
            rw [if_pos hp1]
          · have hpe : (c', p.2) = p := by rw [← hp1]
            rw [hpe]
            exact hstep
        · have hc'' : c' ∈ cs := by
            rcases List.mem_cons.mp hc' with h1 | h1
            · exact absurd h1 hcc
            · exact h1
          rcases ih ys hm c' hc'' with ⟨w, hw1, hw2⟩
          refine ⟨w, ?_, hw2⟩
          unfold dictFind?
          rw [if_neg (fun he => hcc (by rw [← he]; exact hp1))]
          exact hw1

theorem impFit_eq_mf (self : CategoricalImputer) (X : DataFrame)
    (hstr : self.strategy = "most_frequent") :
    self.fit X = ((self.columns.getD X.columns).mapM (impFitStep X) >>= fun fl =>
      Except.ok ⟨some (self.columns.getD X.columns), self.strategy, some fl⟩) := by
  unfold CategoricalImputer.fit
  rw [if_pos hstr]

theorem impFit_eq_other (self : CategoricalImputer) (X : DataFrame)
    (hstr : ¬ self.strategy = "most_frequent") :
    self.fit X = Except.ok ⟨some (self.columns.getD X.columns), self.strategy,
      some ((self.columns.getD X.columns).map (fun c => (c, Cell.str "0")))⟩ := by
  unfold CategoricalImputer.fit
  rw [if_neg hstr]

theorem impFit_of_mapM_ok (self : CategoricalImputer) (X : DataFrame)
    (hstr : self.strategy = "most_frequent") (fl : List (String × Cell))
    (hm : (self.columns.getD X.columns).mapM (impFitStep X) = Except.ok fl) :
    self.fit X = Except.ok ⟨some (self.columns.getD X.columns), self.strategy, some fl⟩ := by
  rw [impFit_eq_mf self X hstr, hm, except_bind_ok]

/-- Refitting an already-fit imputer on the same data reproduces it. -/
theorem impFit_idem (imp imp' : CategoricalImputer) (X : DataFrame)
    (h : imp.fit X = Except.ok imp') : imp'.fit X = Except.ok imp' := by
  by_cases hstr : imp.strategy = "most_frequent"
  · rw [impFit_eq_mf imp X hstr] at h
    cases hm : (imp.columns.getD X.columns).mapM (impFitStep X) with
    | error er => rw [hm, except_bind_error] at h; cases h
    | ok fl =>
      rw [hm, except_bind_ok] at h
      have himp : imp' = ⟨some (imp.columns.getD X.columns), imp.strategy, some fl⟩ :=
        (Except.ok.inj h).symm
      subst himp
      exact impFit_of_mapM_ok _ X hstr fl hm
  · rw [impFit_eq_other imp X hstr] at h
    have himp : imp' = ⟨some (imp.columns.getD X.columns), imp.strategy,
        some ((imp.columns.getD X.columns).map (fun c => (c, Cell.str "0")))⟩ :=
      (Except.ok.inj h).symm
    subst himp
    exact impFit_eq_other _ X hstr

/-- Refitting a freshly-constructed encoder on the same data reproduces the
first fit exactly (the dict update is idempotent on identical data). -/
theorem encFit_idem_fresh (df : Bool) (X : DataFrame) (hnd : X.columns.Nodup) :
    ((⟨df, []⟩ : CategoricalEncoder).fit X).fit X = (⟨df, []⟩ : CategoricalEncoder).fit X := by
  unfold CategoricalEncoder.fit
  show (⟨df, List.foldl encFitStep
      (List.foldl encFitStep [] (X.select_dtypes [Dtype.object]).cols)
      (X.select_dtypes [Dtype.object]).cols⟩ : CategoricalEncoder)
    = ⟨df, List.foldl encFitStep [] (X.select_dtypes [Dtype.object]).cols⟩
  congr 1
  exact encFold_idem (X.select_dtypes [Dtype.object]).cols
    (List.Nodup.sublist (select_names_sublist X [Dtype.object]) hnd) []
    (by simp [dictKeys])

/-! ## Claim theorems -/

/-- C1: the script configures `gs_lr` as a cv=10 grid search over
penalty ∈ {l1, l2} × C ∈ {1.0, 0.5, 0.1} scored by roc_auc, but reads
`best_params_` and `best_score_` without ever calling `fit`, so the
grid-search section of the script raises an `AttributeError` instead of
exposing results of a completed search. -/
theorem C1_grid_search_read_before_fit :
    gs_lr.cv = 10 ∧ gs_lr.scoring = "roc_auc" ∧
    gs_lr.param_grid = [("model_lr__penalty", [Cell.str "l1", Cell.str "l2"]),
      ("model_lr__C", [Cell.float 1, Cell.float (1 / 2), Cell.float (1 / 10)])] ∧
    gs_lr.best_params = none ∧ gs_lr.best_score = none ∧
    script_grid_search_section = Except.error Err.attributeError :=
  ⟨rfl, rfl, rfl, rfl, rfl, rfl⟩

/-- Modelled from the spec's words for C3 ("returns exactly the numeric
columns of X", quantifying over every numeric dtype): the sub-table of all
numeric-dtype (`int64` or `float64`) columns. -/
def numericColumns_spec (X : DataFrame) : DataFrame :=
  ⟨X.cols.filter (fun c => c.dtype = Dtype.int64 ∨ c.dtype = Dtype.float64)⟩

/-- A frame with one `int64` and one `float64` column. -/
def C3x : DataFrame :=
  ⟨[⟨"a", Dtype.int64, [Cell.int 1]⟩, ⟨"b", Dtype.float64, [Cell.float 1]⟩]⟩

/-- C3 counterexample: the pipeline's numeric selector is
`ColumnsSelector(type='int64')`, so on a frame with a `float64` column it
does not return all numeric columns — the float column is dropped. -/
theorem C3_counterexample :
    pipeline_num_selector.transform C3x ≠ numericColumns_spec C3x ∧
    pipeline_num_selector.transform C3x = ⟨[⟨"a", Dtype.int64, [Cell.int 1]⟩]⟩ ∧
    numericColumns_spec C3x = C3x := by
  refine ⟨?_, rfl, rfl⟩
  intro h
  cases h

/-- C3 amended: the numeric-branch selector returns exactly the columns of
dtype tag `int64`, in original order with values unchanged (a sublist of
the input's columns), and returns an empty-column table rather than failing
when no column matches; numeric columns of other dtypes (e.g. `float64`)
are dropped. -/
theorem C3_amended (X : DataFrame) :
    (pipeline_num_selector.transform X).cols
      = X.cols.filter (fun c => c.dtype = Dtype.int64) ∧
    (pipeline_num_selector.transform X).cols.Sublist X.cols ∧
    ((∀ c ∈ X.cols, c.dtype ≠ Dtype.int64) → pipeline_num_selector.transform X = ⟨[]⟩) := by
  refine ⟨?_, ?_, ?_⟩
  · show (X.cols.filter (fun c => c.dtype ∈ [Dtype.int64]))
      = X.cols.filter (fun c => c.dtype = Dtype.int64)
    apply List.filter_congr
    intro c _
    simp [List.mem_singleton]
  · exact List.filter_sublist X.cols
  · intro h
    show (⟨X.cols.filter (fun c => c.dtype ∈ [Dtype.int64])⟩ : DataFrame) = ⟨[]⟩
    congr 1
    rw [List.filter_eq_nil_iff]
    intro c hc
    simp only [List.mem_singleton, decide_eq_true_eq]
    exact h c hc

/-- A frame with only an object column (nothing numeric). -/
def C3w : DataFrame := ⟨[⟨"s", Dtype.object, [Cell.str "x"]⟩]⟩

/-- Witness for C3_amended at concrete inputs. -/
theorem C3_amended_witness :
    pipeline_num_selector.transform C3w = ⟨[]⟩ ∧
    (pipeline_num_selector.transform C3x).cols
      = C3x.cols.filter (fun c => c.dtype = Dtype.int64) :=
  ⟨(C3_amended C3w).2.2 (by decide), (C3_amended C3x).1⟩

/-- C2 counterexample: an unfit `CategoricalEncoder` (categories dict still
empty from `__init__`) applied to a table with no object-typed columns
succeeds with an empty result instead of failing with NotFitted. -/
theorem C2_counterexample :
    (⟨true, []⟩ : CategoricalEncoder).transform ⟨[⟨"n", Dtype.int64, [Cell.int 1]⟩]⟩
      = Except.ok ⟨[]⟩ := rfl

/-- C2 amended: `transform` before `fit` fails for a `CategoricalImputer`
whose configured column list is `None` or non-empty (TypeError iterating
`None`, else KeyError/AttributeError on the first column), and for a
`CategoricalEncoder` exactly when the input has at least one object-typed
column (KeyError from the empty categories dict); an unfit encoder on a
table with no object columns returns an empty-column table instead. -/
theorem C2_amended :
    (∀ (imp : CategoricalImputer) (X : DataFrame), imp.fill = none →
      (imp.columns = none ∨ ∃ c cs, imp.columns = some (c :: cs)) →
      ∃ er, imp.transform X = Except.error er) ∧
    (∀ (e : CategoricalEncoder) (X : DataFrame), e.categories = [] →
      (∃ col ∈ X.cols, col.dtype = Dtype.object) →
      e.transform X = Except.error Err.keyError) ∧
    (∀ (e : CategoricalEncoder) (X : DataFrame), e.categories = [] →
      (∀ col ∈ X.cols, col.dtype ≠ Dtype.object) →
      e.transform X = Except.ok ⟨[]⟩) := by
  refine ⟨?_, ?_, ?_⟩
  · intro imp X hfill hcols
    rcases hcols with hnone | ⟨c, cs, hsome⟩
    · refine ⟨Err.typeError, ?_⟩
      unfold CategoricalImputer.transform
      rw [hnone]
    · have htr : imp.transform X = List.foldlM (impTransStep imp.fill) X (c :: cs) := by
        unfold CategoricalImputer.transform
        rw [hsome]
      rw [htr, hfill, List.foldlM_cons]
      cases hg : X.getCol? c with
      | none =>
        have hstep : impTransStep none X c = Except.error Err.keyError := by
          simp only [impTransStep, hg]
        rw [hstep, except_bind_error]
        exact ⟨Err.keyError, rfl⟩
      | some col =>
        have hstep : impTransStep none X c = Except.error Err.attributeError := by
          simp only [impTransStep, hg]
        rw [hstep, except_bind_error]
        exact ⟨Err.attributeError, rfl⟩
  · rintro e X hcat ⟨col, hcol, hdt⟩
    apply encTransform_error_of_missing e X col hcol hdt
    rw [hcat]
    rfl
  · intro e X hcat hno
    have hsel : (X.select_dtypes [Dtype.object]).cols = [] := by
      show X.cols.filter (fun c => c.dtype ∈ [Dtype.object]) = []
      rw [List.filter_eq_nil_iff]
      intro c hc
      simp only [List.mem_singleton, decide_eq_true_eq]
      exact hno c hc
    unfold CategoricalEncoder.transform
    rw [hsel, List.mapM_nil, except_pure_eq_ok, except_bind_ok]
    rfl

/-- Witness for C2_amended at concrete inputs. -/
theorem C2_amended_witness :
    (∃ er, pipeline_cat_imputer.transform ⟨[]⟩ = Except.error er) ∧
    (⟨true, []⟩ : CategoricalEncoder).transform ⟨[⟨"o", Dtype.object, [Cell.str "x"]⟩]⟩
      = Except.error Err.keyError ∧
    (⟨false, []⟩ : CategoricalEncoder).transform ⟨[⟨"m", Dtype.int64, [Cell.int 2]⟩]⟩
      = Except.ok ⟨[]⟩ :=
  ⟨C2_amended.1 pipeline_cat_imputer ⟨[]⟩ rfl
      (Or.inr ⟨"workclass", ["occupation", "native-country"], rfl⟩),
   C2_amended.2.1 ⟨true, []⟩ ⟨[⟨"o", Dtype.object, [Cell.str "x"]⟩]⟩ rfl
      ⟨⟨"o", Dtype.object, [Cell.str "x"]⟩, List.mem_singleton_self _, rfl⟩,
   C2_amended.2.2 ⟨false, []⟩ ⟨[⟨"m", Dtype.int64, [Cell.int 2]⟩]⟩ rfl (by decide)⟩

/-- C10: a fitted `CategoricalEncoder` fails with a `KeyError` when the
transform input contains an object-typed column that was absent from the
fit-time data (no vocabulary entry exists for it), rather than ignoring or
passing through that column. -/
theorem C10_new_object_column_keyerror (df : Bool) (Xf X : DataFrame) (c : String)
    (vs : List Cell) (hmem : (⟨c, Dtype.object, vs⟩ : Col) ∈ X.cols)
    (habsent : c ∉ Xf.columns) :
    ((⟨df, []⟩ : CategoricalEncoder).fit Xf).transform X = Except.error Err.keyError := by
  apply encTransform_error_of_missing _ X ⟨c, Dtype.object, vs⟩ hmem rfl
  show dictFind? (List.foldl encFitStep [] (Xf.select_dtypes [Dtype.object]).cols) c = none
  rw [dictFind?_encFold_not_mem]
  · rfl
  · intro hmem'
    exact habsent ((select_names_sublist Xf [Dtype.object]).subset hmem')

/-- Witness for C10 at concrete inputs. -/
theorem C10_witness :
    ((⟨true, []⟩ : CategoricalEncoder).fit ⟨[⟨"a", Dtype.object, [Cell.str "x"]⟩]⟩).transform
      ⟨[⟨"b", Dtype.object, [Cell.str "y"]⟩]⟩ = Except.error Err.keyError :=
  C10_new_object_column_keyerror true ⟨[⟨"a", Dtype.object, [Cell.str "x"]⟩]⟩
    ⟨[⟨"b", Dtype.object, [Cell.str "y"]⟩]⟩ "b" [Cell.str "y"]
    (List.mem_singleton_self _) (by decide)

/-- A one-object-column frame used to fit encoders in counterexamples. -/
def C8xf : DataFrame := ⟨[⟨"a", Dtype.object, [Cell.str "x"]⟩]⟩

/-- C8 counterexample: a fitted `CategoricalEncoder` transforms an input
missing the fit-time column `"a"` without any error — it silently emits no
indicators for it, so no SchemaMismatch is raised. -/
theorem C8_counterexample :
    ((⟨true, []⟩ : CategoricalEncoder).fit C8xf).transform ⟨[]⟩ = Except.ok ⟨[]⟩ ∧
    dictFind? ((⟨true, []⟩ : CategoricalEncoder).fit C8xf).categories "a"
      = some [Cell.str "x"] ∧
    (⟨[]⟩ : DataFrame).columns = [] :=
  ⟨rfl, rfl, rfl⟩

/-- C8 amended: a `CategoricalImputer` whose configured column list contains
a column missing from the input fails (whole transform aborts, no partial
result); a `CategoricalEncoder` does not check for missing fit-time columns
— its transform succeeds exactly when every object column present in the
input has a fit-time vocabulary entry. -/
theorem C8_amended :
    (∀ (imp : CategoricalImputer) (cs : List String) (X : DataFrame),
      imp.columns = some cs → (∃ c ∈ cs, X.getCol? c = none) →
      ∃ er, imp.transform X = Except.error er) ∧
    (∀ (e : CategoricalEncoder) (X : DataFrame),
      (∃ Y, e.transform X = Except.ok Y) ↔
        (∀ col ∈ X.cols, col.dtype = Dtype.object →
          (dictFind? e.categories col.name).isSome)) := by
  constructor
  · rintro imp cs X hcols ⟨c, hc, hmiss⟩
    exact impTransform_error_of_missing imp cs X hcols c hc hmiss
  · intro e X
    constructor
    · rintro ⟨Y, hY⟩ col hcol hdt
      apply (encTransform_ok_inv e X Y hY).1
      exact List.mem_filter.mpr ⟨hcol, by simp [hdt]⟩
    · intro hall
      apply encTransform_ok_of_all
      intro col hcol
      rcases List.mem_filter.mp hcol with ⟨hmem, hdt⟩
      apply hall col hmem
      simpa using hdt

/-- Witness for C8_amended at concrete inputs. -/
theorem C8_amended_witness :
    (∃ er, pipeline_cat_imputer.transform ⟨[⟨"age", Dtype.int64, [Cell.int 39]⟩]⟩
      = Except.error er) ∧
    (∃ Y, ((⟨true, []⟩ : CategoricalEncoder).fit C8xf).transform ⟨[]⟩ = Except.ok Y) :=
  ⟨C8_amended.1 pipeline_cat_imputer missing_cols ⟨[⟨"age", Dtype.int64, [Cell.int 39]⟩]⟩
      rfl ⟨"workclass", by decide, rfl⟩,
   (C8_amended.2 ((⟨true, []⟩ : CategoricalEncoder).fit C8xf) ⟨[]⟩).mpr
      (fun col hcol => absurd hcol (List.not_mem_nil col))⟩

/-- Frame with one object column named "a". -/
def C4xa : DataFrame := ⟨[⟨"a", Dtype.object, [Cell.str "x"]⟩]⟩

/-- Frame with one object column named "b" (a different column set). -/
def C4xb : DataFrame := ⟨[⟨"b", Dtype.object, [Cell.str "y"]⟩]⟩

/-- C4 counterexample: after refitting an encoder on data with a different
column set, the key "a" learned from the earlier fit survives in the
categories dict (fit updates per column without clearing), and a fresh
imputer that captured its column default at first fit errors on a refit
over data missing those columns. -/
theorem C4_counterexample :
    (((⟨true, []⟩ : CategoricalEncoder).fit C4xa).fit C4xb).categories
      = [("a", [Cell.str "x"]), ("b", [Cell.str "y"])] ∧
    "a" ∉ C4xb.columns ∧
    (CategoricalImputer.mk0.fit C4xa >>= fun imp1 => imp1.fit C4xb)
      = Except.error Err.keyError :=
  ⟨rfl, by decide, rfl⟩

/-- C4 amended: fitting twice on the same data is idempotent (for a fresh
encoder, and for any imputer whose first fit succeeded), but a refit does
not fully replace prior FitState: every key already in an encoder's
categories dict survives any refit. -/
theorem C4_amended :
    (∀ (df : Bool) (X : DataFrame), X.columns.Nodup →
      ((⟨df, []⟩ : CategoricalEncoder).fit X).fit X
        = (⟨df, []⟩ : CategoricalEncoder).fit X) ∧
    (∀ (imp imp' : CategoricalImputer) (X : DataFrame),
      imp.fit X = Except.ok imp' → imp'.fit X = Except.ok imp') ∧
    (∀ (e : CategoricalEncoder) (X : DataFrame) (k : String),
      k ∈ dictKeys e.categories → k ∈ dictKeys ((e.fit X).categories)) := by
  refine ⟨?_, ?_, ?_⟩
  · intro df X hnd
    exact encFit_idem_fresh df X hnd
  · intro imp imp' X h
    exact impFit_idem imp imp' X h
  · intro e X k hk
    show k ∈ dictKeys (List.foldl encFitStep e.categories (X.select_dtypes [Dtype.object]).cols)
    rw [mem_dictKeys_encFold]
    exact Or.inr hk

/-- Witness for C4_amended at concrete inputs. -/
theorem C4_amended_witness :
    ((⟨false, []⟩ : CategoricalEncoder).fit C4xa).fit C4xa
      = (⟨false, []⟩ : CategoricalEncoder).fit C4xa ∧
    (⟨some ["a"], "most_frequent", some [("a", Cell.str "x")]⟩ : CategoricalImputer).fit C4xa
      = Except.ok ⟨some ["a"], "most_frequent", some [("a", Cell.str "x")]⟩ ∧
    "a" ∈ dictKeys (((⟨true, []⟩ : CategoricalEncoder).fit C4xa).fit C4xb).categories :=
  ⟨C4_amended.1 false C4xa (by decide),
   C4_amended.2.1 (CategoricalImputer.mk0 (some ["a"]))
     ⟨some ["a"], "most_frequent", some [("a", Cell.str "x")]⟩ C4xa rfl,
   C4_amended.2.2 ((⟨true, []⟩ : CategoricalEncoder).fit C4xa) C4xb "a" (by decide)⟩

/-- C7: fitting a most_frequent imputer over columns `cs` records, per
column, a most frequently occurring non-missing value of that column; a
subsequent transform replaces exactly the missing entries of the target
columns with the recorded fill value (`applyFill` leaves non-target columns
and non-missing entries unchanged). -/
theorem C7_most_frequent_impute (cs : List String) (f0 : Option (List (String × Cell)))
    (X : DataFrame) (imp' : CategoricalImputer)
    (hfit : CategoricalImputer.fit ⟨some cs, "most_frequent", f0⟩ X = Except.ok imp') :
    ∃ fl, imp' = ⟨some cs, "most_frequent", some fl⟩ ∧
      (∀ c ∈ cs, ∃ col w, X.getCol? c = some col ∧ dictFind? fl c = some w ∧
        w ∈ col.values ∧ w ≠ Cell.na ∧
        (∀ u ∈ col.values, u ≠ Cell.na → countVal col.values u ≤ countVal col.values w)) ∧
      (∀ X2, X2.columns.Nodup → (∀ c ∈ cs, (X2.getCol? c).isSome) →
        imp'.transform X2 = Except.ok (applyFill fl cs X2)) := by
  have hfit' : (cs.mapM (impFitStep X) >>= fun fl =>
      Except.ok (⟨some cs, "most_frequent", some fl⟩ : CategoricalImputer))
      = Except.ok imp' := hfit
  cases hm : cs.mapM (impFitStep X) with
  | error er => rw [hm, except_bind_error] at hfit'; cases hfit'
  | ok fl =>
    rw [hm, except_bind_ok] at hfit'
    have himp : imp' = ⟨some cs, "most_frequent", some fl⟩ := (Except.ok.inj hfit').symm
    refine ⟨fl, himp, ?_, ?_⟩
    · intro c hc
      rcases impFitMapM_find X cs fl hm c hc with ⟨w, hw1, hw2⟩
      rcases impFitStep_ok_spec X c (c, w) hw2 with ⟨_, col, hcol, hmem, hna, hmax⟩
      exact ⟨col, w, hcol, hw1, hmem, hna, hmax⟩
    · intro X2 hnd2 hcols2
      rw [himp]
      apply impTransform_ok_applyFill "most_frequent" fl cs X2 hnd2 hcols2
      intro c hc
      rcases impFitMapM_find X cs fl hm c hc with ⟨w, hw1, _⟩
      rw [hw1]
      rfl

/-- The spec's imputer example: a column `[A, A, B, null]`. -/
def C7x : DataFrame :=
  ⟨[⟨"col", Dtype.object, [Cell.str "A", Cell.str "A", Cell.str "B", Cell.na]⟩]⟩

/-- Witness for C7 at the spec's example: fit records fill value A and
transform yields `[A, A, B, A]`. -/
theorem C7_witness :
    (∃ fl, (⟨some ["col"], "most_frequent", some [("col", Cell.str "A")]⟩ : CategoricalImputer)
        = ⟨some ["col"], "most_frequent", some fl⟩ ∧
      (∀ c ∈ ["col"], ∃ col w, C7x.getCol? c = some col ∧ dictFind? fl c = some w ∧
        w ∈ col.values ∧ w ≠ Cell.na ∧
        (∀ u ∈ col.values, u ≠ Cell.na → countVal col.values u ≤ countVal col.values w)) ∧
      (∀ X2, X2.columns.Nodup → (∀ c ∈ ["col"], (X2.getCol? c).isSome) →
        CategoricalImputer.transform ⟨some ["col"], "most_frequent", some [("col", Cell.str "A")]⟩ X2
          = Except.ok (applyFill fl ["col"] X2))) ∧
    CategoricalImputer.transform
        ⟨some ["col"], "most_frequent", some [("col", Cell.str "A")]⟩ C7x
      = Except.ok ⟨[⟨"col", Dtype.object,
          [Cell.str "A", Cell.str "A", Cell.str "B", Cell.str "A"]⟩]⟩ :=
  ⟨C7_most_frequent_impute ["col"] none C7x
      ⟨some ["col"], "most_frequent", some [("col", Cell.str "A")]⟩ rfl, rfl⟩

theorem dummiesFor_names (df : Bool) (n : String) (cats vals : List Cell) :
    (dummiesFor df n cats vals).map (·.name)
      = (if df then cats.drop 1 else cats).map (fun v => n ++ "_" ++ cellName v) := by
  simp only [dummiesFor]
  rw [List.map_map]
  rfl

/-- C6: a fresh-encoder fit records, for each object-typed column, the
distinct non-missing values ordered by descending frequency; transform then
emits one indicator column per vocabulary entry, named `<column>_<category>`
in vocabulary order, dropping the first entry when `dropFirst` is true. -/
theorem C6_vocab_descending (df : Bool) (X : DataFrame) (hnd : X.columns.Nodup) :
    (∀ col ∈ X.cols, col.dtype = Dtype.object →
      dictFind? ((CategoricalEncoder.fit ⟨df, []⟩ X).categories) col.name
        = some (value_counts col.values) ∧
      (∀ v, v ∈ value_counts col.values ↔ v ∈ col.values ∧ v ≠ Cell.na) ∧
      (value_counts col.values).Nodup ∧
      (value_counts col.values).Pairwise
        (fun a b => countVal col.values b ≤ countVal col.values a)) ∧
    (∀ (n : String) (vs cats : List Cell),
      dictFind? ((CategoricalEncoder.fit ⟨df, []⟩ X).categories) n = some cats →
      ∃ Y, (CategoricalEncoder.fit ⟨df, []⟩ X).transform ⟨[⟨n, Dtype.object, vs⟩]⟩
          = Except.ok Y ∧
        Y.cols.map (·.name)
          = (if df then cats.drop 1 else cats).map (fun v => n ++ "_" ++ cellName v)) := by
  constructor
  · intro col hcol hdt
    have hsel : col ∈ (X.select_dtypes [Dtype.object]).cols :=
      List.mem_filter.mpr ⟨hcol, by simp [hdt]⟩
    have hfind : dictFind? ((CategoricalEncoder.fit ⟨df, []⟩ X).categories) col.name
        = some (value_counts col.values) := by
      show dictFind? (List.foldl encFitStep [] (X.select_dtypes [Dtype.object]).cols) col.name
        = some (value_counts col.values)
      exact dictFind?_encFold_mem col _
        (List.Nodup.sublist (select_names_sublist X [Dtype.object]) hnd) hsel []
    exact ⟨hfind, fun v => value_counts_mem _ v, value_counts_nodup _, value_counts_sorted _⟩
  · intro n vs cats hcats
    have hsel : ((⟨[⟨n, Dtype.object, vs⟩]⟩ : DataFrame).select_dtypes [Dtype.object]).cols
        = [⟨n, Dtype.object, vs⟩] := rfl
    have hall : ∀ col ∈ ((⟨[⟨n, Dtype.object, vs⟩]⟩ : DataFrame).select_dtypes
        [Dtype.object]).cols,
        (dictFind? (CategoricalEncoder.fit ⟨df, []⟩ X).categories col.name).isSome := by
      intro col hc
      rw [hsel, List.mem_singleton] at hc
      subst hc
      show (dictFind? (CategoricalEncoder.fit ⟨df, []⟩ X).categories n).isSome
      rw [hcats]
      rfl
    obtain ⟨Y, hY⟩ := encTransform_ok_of_all _ _ hall
    refine ⟨Y, hY, ?_⟩
    have h2 := (encTransform_ok_inv _ _ _ hY).2
    rw [h2, hsel]
    simp only [List.flatMap_cons, List.flatMap_nil, List.append_nil]
    show (dummiesFor df n ((dictFind? (CategoricalEncoder.fit ⟨df, []⟩ X).categories n).getD [])
        (castToCategories ((dictFind? (CategoricalEncoder.fit ⟨df, []⟩ X).categories n).getD [])
          vs)).map (·.name)
      = (if df then cats.drop 1 else cats).map (fun v => n ++ "_" ++ cellName v)
    rw [hcats, Option.getD_some, dummiesFor_names]

/-- The spec's encoder example: a column `[A, A, B, C]`. -/
def C6x : DataFrame :=
  ⟨[⟨"col", Dtype.object, [Cell.str "A", Cell.str "A", Cell.str "B", Cell.str "C"]⟩]⟩

/-- Witness for C6 at the spec's example: vocabulary `[A, B, C]` in
frequency order; indicator names `col_A, col_B, col_C` without dropFirst
and `col_B, col_C` with dropFirst. -/
theorem C6_witness :
    dictFind? ((CategoricalEncoder.fit ⟨false, []⟩ C6x).categories) "col"
      = some [Cell.str "A", Cell.str "B", Cell.str "C"] ∧
    (∃ Y, (CategoricalEncoder.fit ⟨false, []⟩ C6x).transform
        ⟨[⟨"col", Dtype.object,
          [Cell.str "A", Cell.str "A", Cell.str "B", Cell.str "C"]⟩]⟩ = Except.ok Y ∧
      Y.cols.map (·.name) = ["col_A", "col_B", "col_C"]) ∧
    (∃ Y, (CategoricalEncoder.fit ⟨true, []⟩ C6x).transform
        ⟨[⟨"col", Dtype.object,
          [Cell.str "A", Cell.str "A", Cell.str "B", Cell.str "C"]⟩]⟩ = Except.ok Y ∧
      Y.cols.map (·.name) = ["col_B", "col_C"]) := by
  refine ⟨rfl, ?_, ?_⟩
  · obtain ⟨Y, hY, hnames⟩ := (C6_vocab_descending false C6x (by decide)).2 "col"
      [Cell.str "A", Cell.str "A", Cell.str "B", Cell.str "C"]
      [Cell.str "A", Cell.str "B", Cell.str "C"] rfl
    exact ⟨Y, hY, by rw [hnames]; rfl⟩
  · obtain ⟨Y, hY, hnames⟩ := (C6_vocab_descending true C6x (by decide)).2 "col"
      [Cell.str "A", Cell.str "A", Cell.str "B", Cell.str "C"]
      [Cell.str "A", Cell.str "B", Cell.str "C"] rfl
    exact ⟨Y, hY, by rw [hnames]; rfl⟩

/-- C5: for an encoder fit on `Xf`, every successful transform output
column is an indicator `<column>_<category>` for a category in the
fit-time vocabulary of an object column present in the input (transform
never introduces a new indicator column, and the per-column indicator block
appears in vocabulary order as a sublist of the output); a value unseen at
fit time yields 0 in every indicator of its column's block. -/
theorem C5_schema_determined_by_fit (df : Bool) (Xf X Y : DataFrame)
    (hok : ((⟨df, []⟩ : CategoricalEncoder).fit Xf).transform X = Except.ok Y) :
    (∀ colY ∈ Y.cols, ∃ (col : Col) (cats : List Cell) (v : Cell),
      col ∈ X.cols ∧ col.dtype = Dtype.object ∧
      dictFind? ((CategoricalEncoder.fit ⟨df, []⟩ Xf).categories) col.name = some cats ∧
      v ∈ (if df then cats.drop 1 else cats) ∧
      colY.name = col.name ++ "_" ++ cellName v) ∧
    (∀ col ∈ X.cols, col.dtype = Dtype.object → ∀ cats,
      dictFind? ((CategoricalEncoder.fit ⟨df, []⟩ Xf).categories) col.name = some cats →
      (dummiesFor df col.name cats (castToCategories cats col.values)).Sublist Y.cols ∧
      (∀ (i : Nat) (x : Cell), col.values[i]? = some x → x ∉ cats →
        ∀ colD ∈ dummiesFor df col.name cats (castToCategories cats col.values),
          colD.values[i]? = some (Cell.int 0))) := by
  rcases encTransform_ok_inv _ _ _ hok with ⟨hall, hcols⟩
  constructor
  · intro colY hY
    rw [hcols] at hY
    rcases List.mem_flatMap.mp hY with ⟨col, hcolsel, hcold⟩
    rcases List.mem_filter.mp hcolsel with ⟨hmemX, hdtb⟩
    have hdt : col.dtype = Dtype.object := by simpa using hdtb
    obtain ⟨cats, hcats⟩ := Option.isSome_iff_exists.mp (hall col hcolsel)
    rw [hcats, Option.getD_some] at hcold
    simp only [dummiesFor] at hcold
    rcases List.mem_map.mp hcold with ⟨v, hv, hcolY⟩
    refine ⟨col, cats, v, hmemX, hdt, hcats, ?_, ?_⟩
    · exact hv
    · rw [← hcolY]
  · intro col hmemX hdt cats hcats
    have hcolsel : col ∈ (X.select_dtypes [Dtype.object]).cols :=
      List.mem_filter.mpr ⟨hmemX, by simp [hdt]⟩
    have hna : Cell.na ∉ cats := by
      have hfind : dictFind?
          (List.foldl encFitStep [] (Xf.select_dtypes [Dtype.object]).cols) col.name
          = some cats := hcats
      rcases dictFind?_encFold_some_inv (Xf.select_dtypes [Dtype.object]).cols
          col.name cats [] hfind with ⟨c', _, _, hvc⟩ | hbad
      · rw [hvc]
        exact value_counts_na_not_mem _
      · simp [dictFind?] at hbad
    constructor
    · rcases List.append_of_mem hcolsel with ⟨L1, L2, hsplit⟩
      rw [hcols, hsplit, List.flatMap_append, List.flatMap_cons]
      rw [hcats, Option.getD_some]
      exact (List.sublist_append_left
        (dummiesFor df col.name cats (castToCategories cats col.values)) _).trans
        (List.sublist_append_right _ _)
    · intro i x hxi hxnot colD hcolD
      simp only [dummiesFor] at hcolD
      rcases List.mem_map.mp hcolD with ⟨v, hv, hcolD'⟩
      have hvcats : v ∈ cats := by
        cases df with
        | false => simpa using hv
        | true => exact List.drop_subset 1 cats (by simpa using hv)
      rw [← hcolD']
      show ((castToCategories cats col.values).map
        (fun y => if y = v then Cell.int 1 else Cell.int 0))[i]? = some (Cell.int 0)
      unfold castToCategories
      rw [List.getElem?_map, List.getElem?_map, hxi]
      simp only [Option.map_some']
      rw [if_neg hxnot]
      rw [if_neg (fun he => hna (by rw [he]; exact hvcats))]

/-- Witness for C5: the encoder fit on `[A, A, B, C]` (dropFirst) maps the
unseen value `D` to an all-zero indicator row, and its output schema is the
fit-vocabulary block `col_B, col_C`. -/
theorem C5_witness :
    ((⟨true, []⟩ : CategoricalEncoder).fit C6x).transform
        ⟨[⟨"col", Dtype.object, [Cell.str "D"]⟩]⟩
      = Except.ok ⟨[⟨"col_B", Dtype.int64, [Cell.int 0]⟩,
          ⟨"col_C", Dtype.int64, [Cell.int 0]⟩]⟩ ∧
    (∀ colD ∈ dummiesFor true "col" [Cell.str "A", Cell.str "B", Cell.str "C"]
        (castToCategories [Cell.str "A", Cell.str "B", Cell.str "C"] [Cell.str "D"]),
      colD.values[0]? = some (Cell.int 0)) := by
  constructor
  · rfl
  · intro colD hcolD
    exact ((C5_schema_determined_by_fit true C6x
        ⟨[⟨"col", Dtype.object, [Cell.str "D"]⟩]⟩
        ⟨[⟨"col_B", Dtype.int64, [Cell.int 0]⟩, ⟨"col_C", Dtype.int64, [Cell.int 0]⟩]⟩
        rfl).2
      ⟨"col", Dtype.object, [Cell.str "D"]⟩ (List.mem_singleton_self _) rfl
      [Cell.str "A", Cell.str "B", Cell.str "C"] rfl).2 0 (Cell.str "D") rfl (by decide)
      colD hcolD
